import Mathlib

/-!
Verification of the deadlock-analyzer repository.

The repository ships an interactive resource-allocation-graph editor
(`frontend/src/app.jsx`, with its HTTP client `api.js`) and a backend
analysis engine reached through `POST /api/analyze-deadlock`,
`POST /api/safe-sequence` and `POST /api/simulate-allocation`.  The
frontend source is embedded below directly; the backend engine sources
(`backend/app/deadlock_analyzer.py`, `graph_models.py`, `main.py`) are not
part of the source tree available here, so the engine operations
(`detect_deadlock`, `compute_safe_sequence`, `simulate_allocation`, the
wait-for reduction and the cycle enumerator) are modelled from the
specification, as marked on each definition.

Modelling conventions: JavaScript objects become structures; `undefined`
optional fields become `Option`; the JavaScript `x || d` default idiom is
modelled with its falsy semantics (both `undefined` and `0`/empty string
fall back to the default); CSS style objects are modelled as key-value
lists, and purely visual nested objects (arrow markers, node pixel
positions produced by `Math.random()`) are modelled as opaque payload
data that the claims never inspect.
-/

namespace Deadpanda

/-- JavaScript `x || d` for an optional number `x`: `undefined` and `0` are
falsy and fall back to the default. -/
def jsOrNat (x : Option Nat) (d : Nat) : Nat :=
  match x with
  | none => d
  | some 0 => d
  | some k => k

/-- JavaScript `x || d` for a number `x` that is always present: `0` is falsy. -/
def jsOrNat0 (x : Nat) (d : Nat) : Nat :=
  if x = 0 then d else x

/-- JavaScript `s || d` for a string `s`: the empty string is falsy. -/
def jsOrStr (s : String) (d : String) : String :=
  if s = "" then d else s

/-! ### Decimal rendering of the node-id counter

`app.jsx` builds node ids with template literals such as `` `P${nodeIdCounter}` ``.
The decimal rendering of the counter is modelled structurally so that it
evaluates by kernel reduction and its injectivity can be proved. -/

/-- One decimal digit as a character. -/
def decChar : Nat → Char
  | 0 => '0'
  | 1 => '1'
  | 2 => '2'
  | 3 => '3'
  | 4 => '4'
  | 5 => '5'
  | 6 => '6'
  | 7 => '7'
  | 8 => '8'
  | 9 => '9'
  | _ => '*'

/-- Little-endian decimal digits of `n`, with explicit fuel (first argument)
to keep the recursion structural; `fuel ≥ n` renders all digits. -/
def digitsRevAux : Nat → Nat → List Char
  | 0, _ => []
  | _ + 1, 0 => []
  | fuel + 1, n + 1 => decChar ((n + 1) % 10) :: digitsRevAux fuel ((n + 1) / 10)

/-- Decimal string of a natural number, as produced by a JavaScript
template literal. -/
def natStr (n : Nat) : String :=
  if n = 0 then "0" else ⟨(digitsRevAux n n).reverse⟩

/-! ### Frontend data model (from `app.jsx`) -/

/-- The `data` payload of a React Flow node as built by `addProcess`,
`addResource` and `loadSampleDeadlock`: process nodes carry no
`instances`/`available` entries (they are `undefined` in JavaScript). -/
structure FlowNodeData where
  label : String
  type : String
  instances : Option Nat
  available : Option Nat
deriving DecidableEq

/-- A React Flow node of the editor (`node.type` selects the custom
component; pixel position from `Math.random()` is opaque payload). -/
structure FlowNode where
  id : String
  type : String
  position : Int × Int
  data : FlowNodeData
  style : List (String × String)
deriving DecidableEq

/-- The `data` payload of a React Flow edge: its semantic kind and
instance count. -/
structure FlowEdgeData where
  edgeType : String
  instances : Nat
deriving DecidableEq

/-- A React Flow edge of the editor.  `data` is optional because the code
reads it with optional chaining (`edge.data?.edgeType`). -/
structure FlowEdge where
  id : String
  source : String
  target : String
  type : String
  animated : Bool
  label : String
  style : List (String × String)
  data : Option FlowEdgeData
deriving DecidableEq

/-! ### Serialized graph snapshot (`convertToApiFormat` output, the
engine contract) -/

/-- A node of the serialized snapshot sent to the engine.  The capacity
fields are `Option` so that their presence or absence on the wire is
expressible; `convertToApiFormat` decides what they hold. -/
structure ApiNode where
  id : String
  type : String
  label : String
  instances : Option Nat
  available : Option Nat
deriving DecidableEq

/-- An edge of the serialized snapshot. -/
structure ApiEdge where
  id : String
  source : String
  target : String
  type : String
  instances : Nat
deriving DecidableEq

/-- The serialized graph snapshot. -/
structure ApiGraph where
  nodes : List ApiNode
  edges : List ApiEdge
deriving DecidableEq

/-- `convertToApiFormat` from `app.jsx` (lines 148-166): serializes the
editor state for the engine.  Every node is given `instances`
(`node.data.instances || 1`) and `available` (`node.data.available || 0`);
every edge is given `type` (`edge.data?.edgeType || 'request'`) and
`instances` (`edge.data?.instances || 1`). -/
def convertToApiFormat (nodes : List FlowNode) (edges : List FlowEdge) : ApiGraph where
  nodes := nodes.map fun node =>
    { id := node.id
      type := node.data.type
      label := node.data.label
      instances := some (jsOrNat node.data.instances 1)
      available := some (jsOrNat node.data.available 0) }
  edges := edges.map fun edge =>
    { id := edge.id
      source := edge.source
      target := edge.target
      type := match edge.data with
        | none => "request"
        | some d => jsOrStr d.edgeType "request"
      instances := match edge.data with
        | none => 1
        | some d => jsOrNat0 d.instances 1 }

/-! ### The connect handler (`onConnect`, `app.jsx` lines 106-145) -/

/-- The connection parameters React Flow hands to `onConnect`. -/
structure ConnectParams where
  source : String
  target : String
deriving DecidableEq

/-- The edge built by `onConnect`: the edge kind is auto-detected from the
endpoint node kinds when one endpoint is a process and the other a
resource, and otherwise falls back to the toolbar `edgeType` state;
`now` stands for `Date.now()` in the generated edge id. -/
def onConnectEdge (nodes : List FlowNode) (edgeType : String)
    (params : ConnectParams) (now : Nat) : FlowEdge :=
  let sourceNode := nodes.find? fun n => n.id == params.source
  let targetNode := nodes.find? fun n => n.id == params.target
  let sKind := (sourceNode.map fun n => n.data.type).getD ""
  let tKind := (targetNode.map fun n => n.data.type).getD ""
  let connectionType :=
    if sKind = "process" ∧ tKind = "resource" then "request"
    else if sKind = "resource" ∧ tKind = "process" then "allocation"
    else edgeType
  { id := "e" ++ params.source ++ "-" ++ params.target ++ "-" ++ natStr now
    source := params.source
    target := params.target
    type := "smoothstep"
    animated := connectionType == "request"
    label := if connectionType = "allocation" then "allocated" else "requesting"
    style := [("stroke", if connectionType = "allocation"
                then "var(--color-allocation)" else "var(--color-request)"),
              ("strokeWidth", "2")]
    data := some { edgeType := connectionType, instances := 1 } }

/-- The node kind recorded at id `i`, read the way `onConnect` reads it
(`nodes.find(...)?.data.type`). -/
def nodeKindAt (nodes : List FlowNode) (i : String) : Option String :=
  (nodes.find? fun n => n.id == i).map fun n => n.data.type

/-- The specified edge-direction invariant: a `request` edge goes
process→resource and an `allocation` edge goes resource→process. -/
def DirectionInvariant (nodes : List FlowNode) (e : FlowEdge) : Prop :=
  ((e.data.map FlowEdgeData.edgeType) = some "request" →
    nodeKindAt nodes e.source = some "process" ∧
    nodeKindAt nodes e.target = some "resource") ∧
  ((e.data.map FlowEdgeData.edgeType) = some "allocation" →
    nodeKindAt nodes e.source = some "resource" ∧
    nodeKindAt nodes e.target = some "process")

/-! ### The sample deadlock scenario (`loadSampleDeadlock`, lines 276-353) -/

/-- The four nodes loaded by `loadSampleDeadlock`. -/
def sampleNodes : List FlowNode :=
  [ { id := "P1", type := "process", position := (100, 200)
      data := { label := "P1", type := "process", instances := none, available := none }
      style := [] }
  , { id := "P2", type := "process", position := (400, 200)
      data := { label := "P2", type := "process", instances := none, available := none }
      style := [] }
  , { id := "R1", type := "resource", position := (100, 50)
      data := { label := "R1", type := "resource", instances := some 1, available := some 0 }
      style := [] }
  , { id := "R2", type := "resource", position := (400, 50)
      data := { label := "R2", type := "resource", instances := some 1, available := some 0 }
      style := [] } ]

/-- The four edges loaded by `loadSampleDeadlock`: R1 allocated to P1,
P1 requesting R2, R2 allocated to P2, P2 requesting R1. -/
def sampleEdges : List FlowEdge :=
  [ { id := "e1", source := "R1", target := "P1", type := "smoothstep"
      animated := false, label := "allocated"
      style := [("stroke", "var(--color-allocation)"), ("strokeWidth", "2")]
      data := some { edgeType := "allocation", instances := 1 } }
  , { id := "e2", source := "P1", target := "R2", type := "smoothstep"
      animated := true, label := "requesting"
      style := [("stroke", "var(--color-request)"), ("strokeWidth", "2")]
      data := some { edgeType := "request", instances := 1 } }
  , { id := "e3", source := "R2", target := "P2", type := "smoothstep"
      animated := false, label := "allocated"
      style := [("stroke", "var(--color-allocation)"), ("strokeWidth", "2")]
      data := some { edgeType := "allocation", instances := 1 } }
  , { id := "e4", source := "P2", target := "R1", type := "smoothstep"
      animated := true, label := "requesting"
      style := [("stroke", "var(--color-request)"), ("strokeWidth", "2")]
      data := some { edgeType := "request", instances := 1 } } ]

/-! ### The editor state machine (`addProcess`, `addResource`,
`loadSampleDeadlock`, `clearAll`) -/

/-- One editor operation of the toolbar.  The pixel position passed to the
add operations stands for the `Math.random()` placement. -/
inductive EditorOp where
  | addProcess (pos : Int × Int)
  | addResource (pos : Int × Int)
  | loadSampleDeadlock
  | clearAll
deriving DecidableEq

/-- The part of the component state touched by the four operations. -/
structure EditorState where
  nodes : List FlowNode
  edges : List FlowEdge
  nodeIdCounter : Nat
deriving DecidableEq

/-- The initial editor state (`useNodesState([])`, counter 1). -/
def initialEditorState : EditorState where
  nodes := []
  edges := []
  nodeIdCounter := 1

/-- One step of the editor: `addProcess` appends a `P`-id node and bumps
the counter, `addResource` likewise with an `R` id, `loadSampleDeadlock`
replaces the whole graph and sets the counter to 3, `clearAll` resets. -/
def applyEditorOp (s : EditorState) : EditorOp → EditorState
  | .addProcess pos =>
      let i := "P" ++ natStr s.nodeIdCounter
      { s with
        nodes := s.nodes ++
          [{ id := i, type := "process", position := pos
             data := { label := i, type := "process", instances := none, available := none }
             style := [] }]
        nodeIdCounter := s.nodeIdCounter + 1 }
  | .addResource pos =>
      let i := "R" ++ natStr s.nodeIdCounter
      { s with
        nodes := s.nodes ++
          [{ id := i, type := "resource", position := pos
             data := { label := i, type := "resource", instances := some 1, available := some 1 }
             style := [] }]
        nodeIdCounter := s.nodeIdCounter + 1 }
  | .loadSampleDeadlock =>
      { nodes := sampleNodes, edges := sampleEdges, nodeIdCounter := 3 }
  | .clearAll =>
      { nodes := [], edges := [], nodeIdCounter := 1 }

/-- Run a sequence of editor operations from the initial state. -/
def runEditorOps (ops : List EditorOp) : EditorState :=
  ops.foldl applyEditorOp initialEditorState

/-! ### Highlighting (`handleAnalyzeDeadlock` lines 182-207,
`clearHighlighting` lines 241-263) -/

/-- JavaScript object spread `\x7b...s, ...kvs\x7d` on style maps: the keys of
`kvs` override those of `s`. -/
def styleOverride (s kvs : List (String × String)) : List (String × String) :=
  s.filter (fun kv => !(kvs.any fun kv2 => kv2.1 == kv.1)) ++ kvs

/-- The deadlock glow written onto nodes of the detected cycle. -/
def deadlockNodeStyle : List (String × String) :=
  [("boxShadow", "0 0 20px var(--color-deadlock)"),
   ("border", "3px solid var(--color-deadlock)")]

/-- The node update of `handleAnalyzeDeadlock`: nodes on the cycle get the
deadlock style merged over their current style. -/
def highlightNodes (cycleNodeIds : List String) (ns : List FlowNode) : List FlowNode :=
  ns.map fun node =>
    { node with
      style := if node.id ∈ cycleNodeIds
        then styleOverride node.style deadlockNodeStyle
        else node.style }

/-- The edge update of `handleAnalyzeDeadlock`: edges on the cycle get the
deadlock stroke and are animated. -/
def highlightEdges (cycleEdgeIds : List String) (es : List FlowEdge) : List FlowEdge :=
  es.map fun edge =>
    { edge with
      style := if edge.id ∈ cycleEdgeIds
        then [("stroke", "var(--color-deadlock)"), ("strokeWidth", "4")]
        else edge.style
      animated := if edge.id ∈ cycleEdgeIds then true else edge.animated }

/-- The node update of `clearHighlighting`: every node style is reset. -/
def clearNodesHighlight (ns : List FlowNode) : List FlowNode :=
  ns.map fun node => { node with style := [] }

/-- The edge update of `clearHighlighting`: stroke and animation are reset
from the edge kind. -/
def clearEdgesHighlight (es : List FlowEdge) : List FlowEdge :=
  es.map fun edge =>
    { edge with
      style := [("stroke", if (edge.data.map FlowEdgeData.edgeType) = some "allocation"
                  then "var(--color-allocation)" else "var(--color-request)"),
                ("strokeWidth", "2")]
      animated := (edge.data.map FlowEdgeData.edgeType) == some "request" }

/-! ### String ordering for the engine scan order

The specified fixed scan order of the safety solver is ascending process
id.  The lexicographic order on the character codes of a string is
modelled structurally so that it both evaluates by kernel reduction and
admits the order instances the sorting lemmas need. -/

/-- Character-code key of a string. -/
def strKey (s : String) : List Nat :=
  s.data.map Char.toNat

/-- Lexicographic less-or-equal on code lists. -/
def keyLe : List Nat → List Nat → Bool
  | [], _ => true
  | _ :: _, [] => false
  | a :: as, b :: bs =>
      if a < b then true else if b < a then false else keyLe as bs

/-- Lexicographic strictly-less on code lists. -/
def keyLt : List Nat → List Nat → Bool
  | [], [] => false
  | [], _ :: _ => true
  | _ :: _, [] => false
  | a :: as, b :: bs =>
      if a < b then true else if b < a then false else keyLt as bs

/-- Ascending-id order on strings (lexicographic on character codes). -/
def strLe (s t : String) : Prop :=
  keyLe (strKey s) (strKey t) = true

instance : DecidableRel strLe := fun s t =>
  inferInstanceAs (Decidable (keyLe (strKey s) (strKey t) = true))

/-- Strict version of `strLe`, used to pick the reported cycle. -/
def strLtB (s t : String) : Bool :=
  keyLt (strKey s) (strKey t)

/-- Sort a list of ids ascending. -/
def sortIds (l : List String) : List String :=
  l.insertionSort strLe

/-! ### The analysis engine

The backend engine sources are not in the available source tree; the
definitions below are the engine as the specification describes it. -/

/-- Result of the safety solver: `is_safe` and the safe completion order
(empty when unsafe). -/
structure SafetyResult where
  is_safe : Bool
  safe_sequence : List String
deriving DecidableEq

/-- A detected cycle mapped back onto the graph. -/
structure CycleInfo where
  affected_nodes : List String
  affected_edges : List String
  cycle_path : List String
deriving DecidableEq

/-- Result of the deadlock detector. -/
structure DeadlockResult where
  has_deadlock : Bool
  cycle_info : Option CycleInfo
deriving DecidableEq

/-- A candidate allocation request handed to the simulator. -/
structure AllocationRequest where
  process_id : String
  resource_id : String
  instances : Nat
deriving DecidableEq

/-- Result of the allocation simulator. -/
structure SimulationResult where
  granted : Bool
  graph : ApiGraph
  reason : String
deriving DecidableEq

/-- The ids of the graph's process nodes, in node order. -/
def processIds (g : ApiGraph) : List String :=
  (g.nodes.filter fun n => n.type == "process").map ApiNode.id

/-- The ids of the graph's resource nodes, in node order. -/
def resourceIds (g : ApiGraph) : List String :=
  (g.nodes.filter fun n => n.type == "resource").map ApiNode.id

/-- Deduplicated process ids in ascending order — the fixed scan order of
the safety solver. -/
def procIdsSorted (g : ApiGraph) : List String :=
  sortIds (processIds g).dedup

/-- Deduplicated resource ids in ascending order. -/
def resIdsSorted (g : ApiGraph) : List String :=
  sortIds (resourceIds g).dedup

/-- Modelled from the spec: the engine backend is not in the source tree.
Stored `available` count of resource `r`, summed over the (in valid
graphs unique) resource nodes with that id. -/
def availFn (g : ApiGraph) : String → Nat := fun r =>
  ((g.nodes.filter fun n => n.type == "resource" && n.id == r).map
    fun n => n.available.getD 0).sum

/-- Modelled from the spec: total `instances` capacity of resource `r`. -/
def totalInstances (g : ApiGraph) (r : String) : Nat :=
  ((g.nodes.filter fun n => n.type == "resource" && n.id == r).map
    fun n => n.instances.getD 0).sum

/-- Modelled from the spec: outstanding request weight of process `p` on
resource `r` (same-kind duplicate edges accumulate additively). -/
def reqW (E : List ApiEdge) (p r : String) : Nat :=
  ((E.filter fun e => e.type == "request" && e.source == p && e.target == r).map
    ApiEdge.instances).sum

/-- Modelled from the spec: allocation weight currently held by process
`p` on resource `r`. -/
def allocW (E : List ApiEdge) (p r : String) : Nat :=
  ((E.filter fun e => e.type == "allocation" && e.source == r && e.target == p).map
    ApiEdge.instances).sum

/-- Modelled from the spec (§4.4): a process can finish when every
outstanding request fits in the working `available` vector. -/
def canFinish (E : List ApiEdge) (resIds : List String)
    (avail : String → Nat) (p : String) : Bool :=
  resIds.all fun r => reqW E p r ≤ avail r

/-- Modelled from the spec (§4.4): a finishing process releases all
resource instances it holds back into the working `available` vector. -/
def release (E : List ApiEdge) (avail : String → Nat) (p : String) :
    String → Nat :=
  fun r => avail r + allocW E p r

/-- Modelled from the spec (§4.4): the rescan-from-top loop of the safety
solver.  Each round finishes the first satisfiable unfinished process in
scan order; when a full scan finds none, the partial sequence is
discarded.  The fuel is the number of processes, enough for every round
(each round removes one process). -/
def bankerLoop (E : List ApiEdge) (resIds : List String) :
    Nat → (String → Nat) → List String → List String → SafetyResult
  | 0, _, unfinished, seq =>
      if unfinished.isEmpty then ⟨true, seq⟩ else ⟨false, []⟩
  | fuel + 1, avail, unfinished, seq =>
      if unfinished.isEmpty then ⟨true, seq⟩
      else
        match unfinished.find? (canFinish E resIds avail) with
        | none => ⟨false, []⟩
        | some p =>
            bankerLoop E resIds fuel (release E avail p)
              (unfinished.erase p) (seq ++ [p])

/-- Modelled from the spec: `compute_safe_sequence` (engine boundary §6),
the Banker-style safety solver over outstanding requests. -/
def compute_safe_sequence (g : ApiGraph) : SafetyResult :=
  let procs := procIdsSorted g
  bankerLoop g.edges (resIdsSorted g) procs.length (availFn g) procs []

/-- Modelled from the spec (§4.2): the wait-for reduction.  For every
request edge Pi→R and every allocation edge R→Pj there is a wait-for
pair (Pi, Pj), deduplicated. -/
def waitForPairs (g : ApiGraph) : List (String × String) :=
  ((g.edges.filter fun e => e.type == "request").flatMap fun er =>
    ((g.edges.filter fun ea => ea.type == "allocation" && ea.source == er.target).map
      fun ea => (er.source, ea.target))).dedup

/-- The vertices of a wait-for graph: all pair endpoints, deduplicated. -/
def wfVertices (wf : List (String × String)) : List String :=
  (wf.map Prod.fst ++ wf.map Prod.snd).dedup

/-- The consecutive pairs of a cyclic walk through `c`, wrapping from the
last vertex back to the first. -/
def cyclePairs (c : List String) : List (String × String) :=
  match c with
  | [] => []
  | h :: t => (h :: t).zip (t ++ [h])

/-- A simple cycle of the wait-for graph `wf`: a non-empty list of
distinct vertices each consecutive pair of which (wrapping around) is a
wait-for edge. -/
def isSimpleCycle (wf : List (String × String)) (c : List String) : Bool :=
  !c.isEmpty && decide c.Nodup && (cyclePairs c).all fun pr => decide (pr ∈ wf)

/-- All finite candidate vertex sequences over a base list: every
permutation of every sub-list.  Structural so that it evaluates. -/
def subseqs : List String → List (List String)
  | [] => [[]]
  | a :: t => subseqs t ++ (subseqs t).map (a :: ·)

/-- Modelled from the spec (§4.3): complete enumeration of the simple
cycles of the wait-for graph (the spec admits any complete enumeration
algorithm). -/
def enumCycles (g : ApiGraph) : List (List String) :=
  let wf := waitForPairs g
  (((subseqs (wfVertices wf)).flatMap List.permutations').filter (isSimpleCycle wf))

/-- Lexicographic strictly-less on cycles, for the deterministic choice of
the reported cycle. -/
def cycLt : List String → List String → Bool
  | [], [] => false
  | [], _ :: _ => true
  | _ :: _, [] => false
  | a :: as, b :: bs =>
      if strLtB a b then true else if strLtB b a then false else cycLt as bs

/-- Modelled from the spec (§4.3): deterministic representative cycle —
the lexicographically smallest enumerated cycle. -/
def pickMinCycle (cs : List (List String)) : Option (List String) :=
  cs.foldl (fun acc c =>
    match acc with
    | none => some c
    | some m => if cycLt c m then some c else some m) none

/-- Modelled from the spec (§4.3): map the chosen cycle back onto the
graph — the processes on it, the resources and edges that produced its
wait-for pairs, and the closed `cycle_path`. -/
def mkCycleInfo (g : ApiGraph) (c : List String) : CycleInfo :=
  match c with
  | [] => ⟨[], [], []⟩
  | h :: t =>
      let viaRes := (cyclePairs (h :: t)).flatMap fun pr =>
        (g.edges.filter fun er => er.type == "request" && er.source == pr.1).flatMap
          fun er =>
            ((g.edges.filter fun ea =>
                ea.type == "allocation" && ea.source == er.target && ea.target == pr.2).map
              fun ea => (er.target, er.id, ea.id))
      { affected_nodes := ((h :: t) ++ viaRes.map fun x => x.1).dedup
        affected_edges := (viaRes.flatMap fun x => [x.2.1, x.2.2]).dedup
        cycle_path := (h :: t) ++ [h] }

/-- Modelled from the spec: `detect_deadlock` (engine boundary §6) — a
deadlock is the existence of an enumerated simple cycle. -/
def detect_deadlock (g : ApiGraph) : DeadlockResult :=
  let cycles := enumCycles g
  { has_deadlock := !cycles.isEmpty
    cycle_info := (pickMinCycle cycles).map (mkCycleInfo g) }

/-- Modelled from the spec (§4.5): instances of resource `r` already
committed, held (allocation edges) plus requested (request edges). -/
def committedInstances (E : List ApiEdge) (r : String) : Nat :=
  ((E.filter fun e => e.type == "allocation" && e.source == r).map ApiEdge.instances).sum +
  ((E.filter fun e => e.type == "request" && e.target == r).map ApiEdge.instances).sum

/-- Modelled from the spec (§4.5): `simulate_allocation` — structural
checks, tentative request edge, safety check, commit or roll back. -/
def simulate_allocation (g : ApiGraph) (req : AllocationRequest) : SimulationResult :=
  if !(g.nodes.any fun n => n.type == "process" && n.id == req.process_id) then
    ⟨false, g, "process not found"⟩
  else if !(g.nodes.any fun n => n.type == "resource" && n.id == req.resource_id) then
    ⟨false, g, "resource not found"⟩
  else if totalInstances g req.resource_id - committedInstances g.edges req.resource_id
      < req.instances then
    ⟨false, g, "request exceeds remaining instances"⟩
  else
    let tentative : ApiGraph :=
      { g with edges := g.edges ++
          [{ id := "sim-" ++ req.process_id ++ "-" ++ req.resource_id
             source := req.process_id
             target := req.resource_id
             type := "request"
             instances := req.instances }] }
    if (compute_safe_sequence tentative).is_safe then
      ⟨true, tentative, "granted"⟩
    else
      ⟨false, g, "denied - would cause unsafe state"⟩

/-- The serialized sample deadlock scenario, exactly what the frontend
sends to the engine after `loadSampleDeadlock`. -/
def sampleApi : ApiGraph :=
  convertToApiFormat sampleNodes sampleEdges

/-! ### Order facts about the ascending-id order -/

theorem keyLe_total : ∀ a b : List Nat, keyLe a b = true ∨ keyLe b a = true := by
  intro a
  induction a with
  | nil => intro b; left; cases b <;> rfl
  | cons x xs ih =>
    intro b
    cases b with
    | nil => right; rfl
    | cons y ys =>
      by_cases h1 : x < y
      · left; simp [keyLe, h1]
      · by_cases h2 : y < x
        · right; simp [keyLe, h2]
        · have hxy : x = y := by omega
          subst hxy
          rcases ih ys with h | h
          · left; simp [keyLe, h]
          · right; simp [keyLe, h]

theorem keyLe_trans : ∀ a b c : List Nat,
    keyLe a b = true → keyLe b c = true → keyLe a c = true := by
  intro a
  induction a with
  | nil => intro b c _ _; cases c <;> rfl
  | cons x xs ih =>
    intro b c hab hbc
    cases b with
    | nil => simp [keyLe] at hab
    | cons y ys =>
      cases c with
      | nil => simp [keyLe] at hbc
      | cons z zs =>
        simp only [keyLe] at hab hbc ⊢
        split_ifs at hab hbc ⊢ <;>
          first
          | rfl
          | omega
          | exact ih ys zs hab hbc

theorem keyLe_antisymm : ∀ a b : List Nat,
    keyLe a b = true → keyLe b a = true → a = b := by
  intro a
  induction a with
  | nil =>
    intro b _ hba
    cases b with
    | nil => rfl
    | cons y ys => simp [keyLe] at hba
  | cons x xs ih =>
    intro b hab hba
    cases b with
    | nil => simp [keyLe] at hab
    | cons y ys =>
      simp only [keyLe] at hab hba
      split_ifs at hab hba <;> first
      | omega
      | (have : x = y := by omega
         subst this
         rw [ih ys hab hba])

theorem strKey_inj {s t : String} (h : strKey s = strKey t) : s = t := by
  have hinj : Function.Injective Char.toNat := by
    intro a b hab
    apply Char.ext
    exact UInt32.toNat.inj hab
  have hd : s.data = t.data := List.map_injective_iff.mpr hinj h
  cases s; cases t
  exact congrArg String.mk (by simpa using hd)

instance : IsTotal String strLe := ⟨fun _ _ => keyLe_total _ _⟩

instance : IsTrans String strLe := ⟨fun _ _ _ h1 h2 => keyLe_trans _ _ _ h1 h2⟩

instance : IsAntisymm String strLe :=
  ⟨fun _ _ h1 h2 => strKey_inj (keyLe_antisymm _ _ h1 h2)⟩

theorem sortIds_perm (l : List String) : List.Perm (sortIds l) l :=
  List.perm_insertionSort _ l

theorem sortIds_sorted (l : List String) : (sortIds l).Sorted strLe :=
  List.sorted_insertionSort _ l

theorem sortIds_eq_of_perm {l₁ l₂ : List String} (h : List.Perm l₁ l₂) :
    sortIds l₁ = sortIds l₂ :=
  List.eq_of_perm_of_sorted
    ((sortIds_perm l₁).trans (h.trans (sortIds_perm l₂).symm))
    (sortIds_sorted l₁) (sortIds_sorted l₂)

/-! ### Injectivity of the generated node ids -/

theorem digitsRevAux_congr : ∀ n f₁ f₂ : Nat, n ≤ f₁ → n ≤ f₂ →
    digitsRevAux f₁ n = digitsRevAux f₂ n := by
  intro n
  induction n using Nat.strong_induction_on with
  | _ n ih =>
    intro f₁ f₂ h1 h2
    match n, f₁, f₂ with
    | 0, 0, 0 => rfl
    | 0, 0, _ + 1 => rfl
    | 0, _ + 1, 0 => rfl
    | 0, _ + 1, _ + 1 => rfl
    | m + 1, f + 1, g + 1 =>
      show decChar _ :: digitsRevAux f ((m + 1) / 10) =
        decChar _ :: digitsRevAux g ((m + 1) / 10)
      have hdiv : (m + 1) / 10 ≤ m := by omega
      rw [ih ((m + 1) / 10) (by omega) f g (by omega) (by omega)]

theorem digitsRevAux_nil : ∀ f n : Nat, digitsRevAux f n = [] → n ≤ f → n = 0 := by
  intro f n h hle
  match f, n with
  | 0, n => omega
  | _ + 1, 0 => rfl
  | _ + 1, _ + 1 => simp [digitsRevAux] at h

theorem decChar_inj : ∀ x, x < 10 → ∀ y, y < 10 → decChar x = decChar y → x = y := by
  decide

theorem digitsRev_inj : ∀ a b : Nat, digitsRevAux a a = digitsRevAux b b → a = b := by
  intro a
  induction a using Nat.strong_induction_on with
  | _ a ih =>
    intro b h
    match a, b with
    | 0, 0 => rfl
    | 0, m + 1 => simp [digitsRevAux] at h
    | n + 1, 0 => simp [digitsRevAux] at h
    | n + 1, m + 1 =>
      simp only [digitsRevAux, List.cons.injEq] at h
      obtain ⟨h1, h2⟩ := h
      have hm : (n + 1) % 10 = (m + 1) % 10 :=
        decChar_inj _ (by omega) _ (by omega) h1
      have h2' : digitsRevAux ((n + 1) / 10) ((n + 1) / 10) =
          digitsRevAux ((m + 1) / 10) ((m + 1) / 10) := by
        calc digitsRevAux ((n + 1) / 10) ((n + 1) / 10)
            = digitsRevAux n ((n + 1) / 10) :=
              digitsRevAux_congr _ _ _ le_rfl (by omega)
          _ = digitsRevAux m ((m + 1) / 10) := h2
          _ = digitsRevAux ((m + 1) / 10) ((m + 1) / 10) :=
              digitsRevAux_congr _ _ _ (by omega) le_rfl
      have hq : (n + 1) / 10 = (m + 1) / 10 :=
        ih ((n + 1) / 10) (by omega) ((m + 1) / 10) h2'
      omega

theorem natStr_ne_zero_val {b : Nat} (hb : b ≠ 0) : natStr b ≠ "0" := by
  intro h
  unfold natStr at h
  rw [if_neg hb] at h
  have hdata : (digitsRevAux b b).reverse = ['0'] := by
    have := congrArg String.data h
    simpa using this
  have hrev : digitsRevAux b b = ['0'] := by
    have := congrArg List.reverse hdata
    simpa using this
  match b, hrev with
  | m + 1, hrev =>
    simp only [digitsRevAux, List.cons.injEq] at hrev
    obtain ⟨h1, h2⟩ := hrev
    have hq : (m + 1) / 10 = 0 :=
      digitsRevAux_nil m _ h2 (by omega)
    have hr : (m + 1) % 10 = 0 := by
      have h0 : decChar 0 = '0' := rfl
      exact decChar_inj _ (by omega) 0 (by omega) (h0 ▸ h1)
    omega

theorem natStr_inj : ∀ a b : Nat, natStr a = natStr b → a = b := by
  intro a b h
  by_cases ha : a = 0 <;> by_cases hb : b = 0
  · omega
  · subst ha
    exact absurd h.symm (natStr_ne_zero_val hb)
  · subst hb
    exact absurd h (natStr_ne_zero_val ha)
  · unfold natStr at h
    rw [if_neg ha, if_neg hb] at h
    have hdata : (digitsRevAux a a).reverse = (digitsRevAux b b).reverse := by
      have := congrArg String.data h
      simpa using this
    have hrev : digitsRevAux a a = digitsRevAux b b :=
      List.reverse_injective hdata
    exact digitsRev_inj a b hrev

theorem string_data_append (s t : String) : (s ++ t).data = s.data ++ t.data := by
  cases s; cases t; rfl

theorem string_append_left_cancel {p s t : String} (h : p ++ s = p ++ t) : s = t := by
  have hd : p.data ++ s.data = p.data ++ t.data := by
    have := congrArg String.data h
    simpa [string_data_append] using this
  have hst : s.data = t.data := List.append_cancel_left hd
  cases s; cases t
  exact congrArg String.mk (by simpa using hst)

theorem pid_inj {a b : Nat} (h : "P" ++ natStr a = "P" ++ natStr b) : a = b :=
  natStr_inj _ _ (string_append_left_cancel h)

theorem rid_inj {a b : Nat} (h : "R" ++ natStr a = "R" ++ natStr b) : a = b :=
  natStr_inj _ _ (string_append_left_cancel h)

theorem pid_ne_rid (a b : Nat) : "P" ++ natStr a ≠ "R" ++ natStr b := by
  intro h
  have hd := congrArg String.data h
  rw [string_data_append, string_data_append] at hd
  have hP : ("P" : String).data = ['P'] := by decide
  have hR : ("R" : String).data = ['R'] := by decide
  rw [hP, hR] at hd
  simp at hd

/-! ### Claim C9: node-id uniqueness across editor operations -/

/-- Invariant maintained by the editor: node ids are pairwise distinct and
every id is a counter-generated `P`- or `R`-id with suffix below the
current counter. -/
def GoodEditorState (s : EditorState) : Prop :=
  (s.nodes.map FlowNode.id).Nodup ∧
  ∀ n ∈ s.nodes, ∃ k, k < s.nodeIdCounter ∧
    (n.id = "P" ++ natStr k ∨ n.id = "R" ++ natStr k)

theorem good_initial : GoodEditorState initialEditorState := by
  constructor
  · simp [initialEditorState]
  · intro n hn
    simp [initialEditorState] at hn

theorem good_apply (s : EditorState) (op : EditorOp)
    (h : GoodEditorState s) : GoodEditorState (applyEditorOp s op) := by
  obtain ⟨hnd, hbound⟩ := h
  cases op with
  | addProcess pos =>
    constructor
    · simp only [applyEditorOp, List.map_append, List.map_cons, List.map_nil]
      rw [List.nodup_append]
      refine ⟨hnd, List.nodup_singleton _, ?_⟩
      intro a ha hb
      simp only [List.mem_singleton] at hb
      subst hb
      obtain ⟨n, hn, hid⟩ := List.mem_map.mp ha
      obtain ⟨k, hk, hPk | hRk⟩ := hbound n hn
      · have := pid_inj (hid.symm.trans hPk)
        omega
      · exact pid_ne_rid s.nodeIdCounter k (hid.symm.trans hRk)
    · intro n hn
      simp only [applyEditorOp, List.mem_append, List.mem_singleton] at hn
      rcases hn with hn | hn
      · obtain ⟨k, hk, hor⟩ := hbound n hn
        exact ⟨k, by simp [applyEditorOp]; omega, hor⟩
      · subst hn
        exact ⟨s.nodeIdCounter, by simp [applyEditorOp], Or.inl rfl⟩
  | addResource pos =>
    constructor
    · simp only [applyEditorOp, List.map_append, List.map_cons, List.map_nil]
      rw [List.nodup_append]
      refine ⟨hnd, List.nodup_singleton _, ?_⟩
      intro a ha hb
      simp only [List.mem_singleton] at hb
      subst hb
      obtain ⟨n, hn, hid⟩ := List.mem_map.mp ha
      obtain ⟨k, hk, hPk | hRk⟩ := hbound n hn
      · exact pid_ne_rid k s.nodeIdCounter (hid.symm.trans hPk).symm
      · have := rid_inj (hid.symm.trans hRk)
        omega
    · intro n hn
      simp only [applyEditorOp, List.mem_append, List.mem_singleton] at hn
      rcases hn with hn | hn
      · obtain ⟨k, hk, hor⟩ := hbound n hn
        exact ⟨k, by simp [applyEditorOp]; omega, hor⟩
      · subst hn
        exact ⟨s.nodeIdCounter, by simp [applyEditorOp], Or.inr rfl⟩
  | loadSampleDeadlock =>
    constructor
    · show (sampleNodes.map FlowNode.id).Nodup
      decide
    · intro n hn
      show ∃ k, k < 3 ∧ _
      simp only [applyEditorOp, sampleNodes, List.mem_cons, List.not_mem_nil,
        or_false] at hn
      rcases hn with hn | hn | hn | hn <;> subst hn
      · exact ⟨1, by omega, Or.inl (by decide)⟩
      · exact ⟨2, by omega, Or.inl (by decide)⟩
      · exact ⟨1, by omega, Or.inr (by decide)⟩
      · exact ⟨2, by omega, Or.inr (by decide)⟩
  | clearAll =>
    constructor
    · simp [applyEditorOp]
    · intro n hn
      simp [applyEditorOp] at hn

theorem good_fold : ∀ (ops : List EditorOp) (s : EditorState),
    GoodEditorState s → GoodEditorState (ops.foldl applyEditorOp s) := by
  intro ops
  induction ops with
  | nil => intro s h; exact h
  | cons op rest ih =>
    intro s h
    exact ih _ (good_apply s op h)

/-- Claim C9: every sequence of editor operations (`addProcess`,
`addResource`, `loadSampleDeadlock`, `clearAll`, in any order) keeps node
ids unique across the whole graph, because ids come from a strictly
increasing counter with a kind-specific letter and the sample loader
resets the counter above the suffixes it uses. -/
theorem editor_node_ids_unique (ops : List EditorOp) :
    ((runEditorOps ops).nodes.map FlowNode.id).Nodup :=
  (good_fold ops initialEditorState good_initial).1

/-! ### Claim C10: highlighting touches only presentation fields -/

/-- The structural view of a node: everything except `style`. -/
def nodeViewKey (n : FlowNode) : String × String × (Int × Int) × FlowNodeData :=
  (n.id, n.type, n.position, n.data)

/-- The structural view of an edge: everything except `style` and
`animated`. -/
def edgeViewKey (e : FlowEdge) :
    String × String × String × String × String × Option FlowEdgeData :=
  (e.id, e.source, e.target, e.type, e.label, e.data)

/-- Claim C10: applying deadlock-cycle highlighting and clearing it again
change only `style` and `animated`; the id, endpoints, node data and edge
data of every element are untouched. -/
theorem highlighting_only_presentation (cycN cycE : List String)
    (ns : List FlowNode) (es : List FlowEdge) :
    (highlightNodes cycN ns).map nodeViewKey = ns.map nodeViewKey ∧
    (highlightEdges cycE es).map edgeViewKey = es.map edgeViewKey ∧
    (clearNodesHighlight ns).map nodeViewKey = ns.map nodeViewKey ∧
    (clearEdgesHighlight es).map edgeViewKey = es.map edgeViewKey := by
  refine ⟨?_, ?_, ?_, ?_⟩ <;>
    simp only [highlightNodes, highlightEdges, clearNodesHighlight,
      clearEdgesHighlight, List.map_map] <;> rfl

/-! ### Claim C7: direction invariant of the connect handler -/

/-- Two process nodes, as `addProcess` would create them. -/
def twoProcessNodes : List FlowNode :=
  [ { id := "P1", type := "process", position := (0, 0)
      data := { label := "P1", type := "process", instances := none, available := none }
      style := [] }
  , { id := "P2", type := "process", position := (0, 0)
      data := { label := "P2", type := "process", instances := none, available := none }
      style := [] } ]

/-- Counterexample to claim C7: connecting two process nodes with the
toolbar set to `request` creates a request edge whose target is a
process, violating the direction invariant — auto-detection only fires
for mixed-kind endpoint pairs. -/
theorem onConnect_direction_counterexample :
    ¬ DirectionInvariant twoProcessNodes
      (onConnectEdge twoProcessNodes "request" ⟨"P1", "P2"⟩ 0) := by
  unfold DirectionInvariant
  decide

/-- Claim C7 as amended: whenever the connect handler is invoked on
endpoints of differing kinds (one process and one resource, both
present), the created edge satisfies the direction invariant; the kind is
auto-detected from the endpoints in exactly these cases. -/
theorem onConnect_mixed_kinds_direction
    (nodes : List FlowNode) (edgeType : String) (params : ConnectParams)
    (now : Nat) (s t : FlowNode)
    (hs : nodes.find? (fun n => n.id == params.source) = some s)
    (ht : nodes.find? (fun n => n.id == params.target) = some t)
    (hk : s.data.type = "process" ∧ t.data.type = "resource" ∨
          s.data.type = "resource" ∧ t.data.type = "process") :
    DirectionInvariant nodes (onConnectEdge nodes edgeType params now) := by
  unfold DirectionInvariant onConnectEdge nodeKindAt
  rcases hk with ⟨h1, h2⟩ | ⟨h1, h2⟩ <;>
    simp [hs, ht, h1, h2]

/-- One process node and one resource node. -/
def mixedKindNodes : List FlowNode :=
  [ { id := "P1", type := "process", position := (0, 0)
      data := { label := "P1", type := "process", instances := none, available := none }
      style := [] }
  , { id := "R1", type := "resource", position := (0, 0)
      data := { label := "R1", type := "resource", instances := some 1, available := some 1 }
      style := [] } ]

theorem onConnect_mixed_kinds_direction_witness :
    DirectionInvariant mixedKindNodes
      (onConnectEdge mixedKindNodes "allocation" ⟨"P1", "R1"⟩ 5) :=
  onConnect_mixed_kinds_direction mixedKindNodes "allocation" ⟨"P1", "R1"⟩ 5
    { id := "P1", type := "process", position := (0, 0)
      data := { label := "P1", type := "process", instances := none, available := none }
      style := [] }
    { id := "R1", type := "resource", position := (0, 0)
      data := { label := "R1", type := "resource", instances := some 1, available := some 1 }
      style := [] }
    (by decide) (by decide) (Or.inl ⟨rfl, rfl⟩)

/-! ### Claim C8: capacity fields of the serialized snapshot -/

/-- A process node exactly as `addProcess` creates it. -/
def processNodeP1 : FlowNode :=
  { id := "P1", type := "process", position := (0, 0)
    data := { label := "P1", type := "process", instances := none, available := none }
    style := [] }

/-- Counterexample to claim C8: in the serialized snapshot the process
node carries both capacity fields (`instances = 1`, `available = 0` via
the JavaScript default idiom), so it is not the case that only resource
nodes carry them. -/
theorem convert_capacity_claim_counterexample :
    ¬ (∀ m ∈ (convertToApiFormat [processNodeP1] []).nodes,
        m.type ≠ "resource" → m.instances = none ∧ m.available = none) := by
  decide

/-- Claim C8 as amended: every node of the serialized snapshot — process
or resource — carries both capacity fields; `instances` is always at
least 1 (`node.data.instances || 1`) and `available` is always present
(`node.data.available || 0`). -/
theorem convert_nodes_capacity_present (ns : List FlowNode) (es : List FlowEdge)
    (m : ApiNode) (hm : m ∈ (convertToApiFormat ns es).nodes) :
    (∃ k, m.instances = some k ∧ 1 ≤ k) ∧ (∃ j, m.available = some j) := by
  unfold convertToApiFormat at hm
  simp only [List.mem_map] at hm
  obtain ⟨n, -, rfl⟩ := hm
  refine ⟨⟨jsOrNat n.data.instances 1, rfl, ?_⟩, jsOrNat n.data.available 0, rfl⟩
  rcases h : n.data.instances with - | k
  · simp [jsOrNat]
  · cases k with
    | zero => simp [jsOrNat]
    | succ k => simp [jsOrNat]

/-- The serialized form of `processNodeP1`. -/
def apiP1Node : ApiNode :=
  { id := "P1", type := "process", label := "P1"
    instances := some 1, available := some 0 }

theorem convert_nodes_capacity_present_witness :
    (∃ k, apiP1Node.instances = some k ∧ 1 ≤ k) ∧
    (∃ j, apiP1Node.available = some j) :=
  convert_nodes_capacity_present [processNodeP1] [] apiP1Node (by decide)

/-! ### Claim C1: deadlock iff the wait-for reduction has a simple cycle -/

theorem mem_subseqs_of_sublist {s t : List String} (h : s.Sublist t) :
    s ∈ subseqs t := by
  induction h with
  | slnil => simp [subseqs]
  | cons a _ ih =>
    simp only [subseqs, List.mem_append]
    exact Or.inl ih
  | cons₂ a _ ih =>
    simp only [subseqs, List.mem_append]
    exact Or.inr (List.mem_map.mpr ⟨_, ih, rfl⟩)

theorem isSimpleCycle_decomp {wf : List (String × String)} {c : List String}
    (hc : isSimpleCycle wf c = true) :
    c ≠ [] ∧ c.Nodup ∧ ∀ pr ∈ cyclePairs c, pr ∈ wf := by
  unfold isSimpleCycle at hc
  simp only [Bool.and_eq_true, Bool.not_eq_true', List.isEmpty_eq_false_iff_exists_mem,
    decide_eq_true_eq, List.all_eq_true] at hc
  obtain ⟨⟨hne, hnd⟩, hall⟩ := hc
  exact ⟨by rintro rfl; simp at hne, hnd, hall⟩

theorem cycle_vertices_mem {wf : List (String × String)} {c : List String}
    (hc : isSimpleCycle wf c = true) : ∀ a ∈ c, a ∈ wfVertices wf := by
  obtain ⟨hne, _, hall⟩ := isSimpleCycle_decomp hc
  intro a ha
  have hmap : (cyclePairs c).map Prod.fst = c := by
    cases c with
    | nil => rfl
    | cons h t =>
      unfold cyclePairs
      apply List.map_fst_zip
      simp
  have ha' : a ∈ (cyclePairs c).map Prod.fst := by
    rw [hmap]
    exact ha
  obtain ⟨pr, hpr, rfl⟩ := List.mem_map.mp ha'
  have hw : pr ∈ wf := hall pr hpr
  unfold wfVertices
  exact List.mem_dedup.mpr (List.mem_append.mpr (Or.inl (List.mem_map.mpr ⟨pr, hw, rfl⟩)))

/-- Claim C1: `detect_deadlock` reports a deadlock exactly when the
wait-for reduction of the graph contains at least one simple cycle
(equivalently, the engine's enumerated cycle set is non-empty). -/
theorem detect_deadlock_iff_cycle (g : ApiGraph) :
    (detect_deadlock g).has_deadlock = true ↔
    ∃ c, isSimpleCycle (waitForPairs g) c = true := by
  show (!(enumCycles g).isEmpty) = true ↔ _
  rw [Bool.not_eq_true', List.isEmpty_eq_false_iff_exists_mem]
  constructor
  · rintro ⟨c, hc⟩
    exact ⟨c, (List.mem_filter.mp hc).2⟩
  · rintro ⟨c, hc⟩
    refine ⟨c, List.mem_filter.mpr ⟨?_, hc⟩⟩
    obtain ⟨-, hnd, -⟩ := isSimpleCycle_decomp hc
    set vs := wfVertices (waitForPairs g) with hvs
    have hvs_nd : vs.Nodup := List.nodup_dedup _
    set s := vs.filter (fun v => decide (v ∈ c)) with hsdef
    have hs_nd : s.Nodup := hvs_nd.filter _
    have hperm : List.Perm c s := by
      rw [List.perm_ext_iff_of_nodup hnd hs_nd]
      intro a
      constructor
      · intro ha
        exact List.mem_filter.mpr ⟨cycle_vertices_mem hc a ha, by simpa using ha⟩
      · intro ha
        have := (List.mem_filter.mp ha).2
        simpa using this
    apply List.mem_flatMap.mpr
    exact ⟨s, mem_subseqs_of_sublist (List.filter_sublist vs),
      List.mem_permutations'.mpr hperm⟩

/-! ### Claims C2, C5, C6: the safety solver -/

theorem bankerLoop_unsafe_nil (E : List ApiEdge) (R : List String) :
    ∀ (fuel : Nat) (avail : String → Nat) (unfinished seq : List String),
    (bankerLoop E R fuel avail unfinished seq).is_safe = false →
    (bankerLoop E R fuel avail unfinished seq).safe_sequence = [] := by
  intro fuel
  induction fuel with
  | zero =>
    intro avail unfinished seq h
    by_cases hemp : unfinished.isEmpty
    · simp [bankerLoop, hemp] at h
    · simp [bankerLoop, hemp]
  | succ fuel ih =>
    intro avail unfinished seq h
    by_cases hemp : unfinished.isEmpty
    · simp [bankerLoop, hemp] at h
    · cases hfind : unfinished.find? (canFinish E R avail) with
      | none => simp [bankerLoop, hemp, hfind]
      | some p =>
        have hred : bankerLoop E R (fuel + 1) avail unfinished seq =
            bankerLoop E R fuel (release E avail p) (unfinished.erase p)
              (seq ++ [p]) := by
          simp [bankerLoop, hemp, hfind]
        rw [hred] at h ⊢
        exact ih _ _ _ h

theorem bankerLoop_safe_perm (E : List ApiEdge) (R : List String) :
    ∀ (fuel : Nat) (avail : String → Nat) (unfinished seq : List String),
    (bankerLoop E R fuel avail unfinished seq).is_safe = true →
    List.Perm (bankerLoop E R fuel avail unfinished seq).safe_sequence
      (seq ++ unfinished) := by
  intro fuel
  induction fuel with
  | zero =>
    intro avail unfinished seq h
    by_cases hemp : unfinished.isEmpty
    · have : unfinished = [] := List.isEmpty_iff.mp hemp
      subst this
      simp [bankerLoop]
    · simp [bankerLoop, hemp] at h
  | succ fuel ih =>
    intro avail unfinished seq h
    by_cases hemp : unfinished.isEmpty
    · have : unfinished = [] := List.isEmpty_iff.mp hemp
      subst this
      simp [bankerLoop]
    · cases hfind : unfinished.find? (canFinish E R avail) with
      | none => simp [bankerLoop, hemp, hfind] at h
      | some p =>
        have hred : bankerLoop E R (fuel + 1) avail unfinished seq =
            bankerLoop E R fuel (release E avail p) (unfinished.erase p)
              (seq ++ [p]) := by
          simp [bankerLoop, hemp, hfind]
        rw [hred] at h ⊢
        have hp : p ∈ unfinished := List.mem_of_find?_eq_some hfind
        have hrec := ih (release E avail p) (unfinished.erase p) (seq ++ [p]) h
        refine hrec.trans ?_
        rw [List.append_assoc]
        exact List.Perm.append_left seq
          (by simpa using (List.perm_cons_erase hp).symm)

/-- Claim C2: the safety solver never returns a partial sequence — when
unsafe the sequence is empty, and when safe it lists every process id of
the graph exactly once. -/
theorem compute_safe_sequence_all_or_nothing (g : ApiGraph) :
    ((compute_safe_sequence g).is_safe = false →
      (compute_safe_sequence g).safe_sequence = []) ∧
    ((compute_safe_sequence g).is_safe = true →
      (compute_safe_sequence g).safe_sequence.Nodup ∧
      ∀ p, p ∈ (compute_safe_sequence g).safe_sequence ↔ p ∈ processIds g) := by
  constructor
  · intro h
    exact bankerLoop_unsafe_nil _ _ _ _ _ _ h
  · intro h
    have hperm0 := bankerLoop_safe_perm g.edges (resIdsSorted g)
      (procIdsSorted g).length (availFn g) (procIdsSorted g) [] h
    simp only [List.nil_append] at hperm0
    have hperm : List.Perm (compute_safe_sequence g).safe_sequence
        (procIdsSorted g) := hperm0
    have hsorted_nd : (procIdsSorted g).Nodup :=
      ((sortIds_perm (processIds g).dedup).nodup_iff).mpr (List.nodup_dedup _)
    constructor
    · exact (hperm.nodup_iff).mpr hsorted_nd
    · intro p
      rw [hperm.mem_iff]
      unfold procIdsSorted
      rw [(sortIds_perm _).mem_iff, List.mem_dedup]

/-- The safe two-process demo scenario: both resources fully available,
each process requesting one unit. -/
def safeDemoApi : ApiGraph where
  nodes :=
    [ { id := "P1", type := "process", label := "P1", instances := some 1, available := some 0 }
    , { id := "P2", type := "process", label := "P2", instances := some 1, available := some 0 }
    , { id := "R1", type := "resource", label := "R1", instances := some 1, available := some 1 }
    , { id := "R2", type := "resource", label := "R2", instances := some 1, available := some 1 } ]
  edges :=
    [ { id := "q1", source := "P1", target := "R1", type := "request", instances := 1 }
    , { id := "q2", source := "P2", target := "R2", type := "request", instances := 1 } ]

theorem compute_safe_sequence_all_or_nothing_witness :
    (compute_safe_sequence safeDemoApi).safe_sequence.Nodup ∧
    ("P1" ∈ (compute_safe_sequence safeDemoApi).safe_sequence ↔
      "P1" ∈ processIds safeDemoApi) := by
  have h := (compute_safe_sequence_all_or_nothing safeDemoApi).2 (by decide)
  exact ⟨h.1, h.2 "P1"⟩

/-- Claim C5: the safety solver is deterministic — it depends only on the
snapshot content, not on the order of the node list, because unfinished
processes are always scanned in a fixed ascending-id order (so two calls
on the same unmutated snapshot return identical results). -/
theorem compute_safe_sequence_deterministic (g₁ g₂ : ApiGraph)
    (hn : List.Perm g₁.nodes g₂.nodes) (he : g₁.edges = g₂.edges) :
    compute_safe_sequence g₁ = compute_safe_sequence g₂ := by
  have hproc : procIdsSorted g₁ = procIdsSorted g₂ := by
    unfold procIdsSorted processIds
    exact sortIds_eq_of_perm ((hn.filter _).map _).dedup
  have hres : resIdsSorted g₁ = resIdsSorted g₂ := by
    unfold resIdsSorted resourceIds
    exact sortIds_eq_of_perm ((hn.filter _).map _).dedup
  have havail : availFn g₁ = availFn g₂ := by
    funext r
    unfold availFn
    exact ((hn.filter _).map _).sum_eq
  unfold compute_safe_sequence
  rw [hproc, hres, havail, he]

theorem compute_safe_sequence_deterministic_witness :
    compute_safe_sequence safeDemoApi =
    compute_safe_sequence { safeDemoApi with nodes := safeDemoApi.nodes.reverse } :=
  compute_safe_sequence_deterministic _ _ (by decide) rfl

/-! ### Claim C6: replaying the safe sequence -/

/-- The replay prescribed by claim C6: at each step the finishing
process's outstanding request weights are subtracted from the running
available vector and its held allocation weights are added back
(integer-valued, so that dropping below zero is observable). -/
def replayIntStep (E : List ApiEdge) (avail : String → Int) (p : String) :
    String → Int :=
  fun r => avail r - (reqW E p r : Int) + (allocW E p r : Int)

/-- Running available after replaying a sequence with subtraction. -/
def replayInt (E : List ApiEdge) (avail : String → Int) (seq : List String) :
    String → Int :=
  seq.foldl (replayIntStep E) avail

/-- Claim C6 verbatim: replaying a safe sequence with the
subtract-then-release accounting never drives any resource below zero. -/
def ReplayNeverNegative : Prop :=
  ∀ g : ApiGraph, (compute_safe_sequence g).is_safe = true →
    ∀ (i : Nat), ∀ r ∈ resIdsSorted g,
      0 ≤ replayInt g.edges (fun x => (availFn g x : Int))
            ((compute_safe_sequence g).safe_sequence.take i) r

/-- A graph on which the claimed replay goes negative: R1 has 3 instances
with 2 available and 1 held by P2; P1 and P2 each request 2.  The solver
finds the safe order P1, P2 (its working available never shrinks), but
the claim's replay subtracts both requests and only returns P2's single
held instance, ending at -1. -/
def bankerCE : ApiGraph where
  nodes :=
    [ { id := "P1", type := "process", label := "P1", instances := some 1, available := some 0 }
    , { id := "P2", type := "process", label := "P2", instances := some 1, available := some 0 }
    , { id := "R1", type := "resource", label := "R1", instances := some 3, available := some 2 } ]
  edges :=
    [ { id := "a1", source := "R1", target := "P2", type := "allocation", instances := 1 }
    , { id := "r1", source := "P1", target := "R1", type := "request", instances := 2 }
    , { id := "r2", source := "P2", target := "R1", type := "request", instances := 2 } ]

/-- Counterexample to claim C6: on `bankerCE` the solver answers safe with
sequence P1, P2, yet the claimed subtract-then-release replay drives R1
to -1 after the second step. -/
theorem replay_never_negative_counterexample : ¬ ReplayNeverNegative := by
  intro h
  have hR := h bankerCE (by decide) 2 "R1" (by decide)
  revert hR
  decide

/-- Checks a sequence step by step the way the solver itself accounts:
each process's outstanding requests must fit in the running available,
which then grows by the process's held allocations (requests are checked
against, not subtracted from, the running vector). -/
def replayOk (E : List ApiEdge) (R : List String) :
    (String → Nat) → List String → Bool
  | _, [] => true
  | avail, p :: rest =>
      canFinish E R avail p && replayOk E R (release E avail p) rest

theorem bankerLoop_safe_replayOk (E : List ApiEdge) (R : List String) :
    ∀ (fuel : Nat) (avail : String → Nat) (unfinished seq : List String),
    (bankerLoop E R fuel avail unfinished seq).is_safe = true →
    ∃ t, (bankerLoop E R fuel avail unfinished seq).safe_sequence = seq ++ t ∧
      replayOk E R avail t = true := by
  intro fuel
  induction fuel with
  | zero =>
    intro avail unfinished seq h
    by_cases hemp : unfinished.isEmpty
    · refine ⟨[], ?_, rfl⟩
      simp [bankerLoop, hemp]
    · simp [bankerLoop, hemp] at h
  | succ fuel ih =>
    intro avail unfinished seq h
    by_cases hemp : unfinished.isEmpty
    · refine ⟨[], ?_, rfl⟩
      simp [bankerLoop, hemp]
    · cases hfind : unfinished.find? (canFinish E R avail) with
      | none => simp [bankerLoop, hemp, hfind] at h
      | some p =>
        have hred : bankerLoop E R (fuel + 1) avail unfinished seq =
            bankerLoop E R fuel (release E avail p) (unfinished.erase p)
              (seq ++ [p]) := by
          simp [bankerLoop, hemp, hfind]
        rw [hred] at h ⊢
        obtain ⟨t, hseq, hok⟩ := ih (release E avail p) (unfinished.erase p)
          (seq ++ [p]) h
        refine ⟨p :: t, ?_, ?_⟩
        · rw [hseq, List.append_assoc]
          rfl
        · show (canFinish E R avail p && replayOk E R (release E avail p) t) = true
          rw [List.find?_some hfind, hok]
          rfl

/-- Claim C6 as amended: when the solver answers safe, replaying the
returned sequence with the solver's own accounting — each finishing
process's outstanding requests fit in the running available, which then
only grows by that process's held allocations — succeeds at every step
(in particular the running available, being a sum of naturals, never
drops below zero). -/
theorem compute_safe_sequence_replay (g : ApiGraph)
    (h : (compute_safe_sequence g).is_safe = true) :
    replayOk g.edges (resIdsSorted g) (availFn g)
      (compute_safe_sequence g).safe_sequence = true := by
  obtain ⟨t, hseq, hok⟩ := bankerLoop_safe_replayOk g.edges (resIdsSorted g)
    (procIdsSorted g).length (availFn g) (procIdsSorted g) [] h
  have hseq' : (compute_safe_sequence g).safe_sequence = t := hseq
  rw [hseq']
  exact hok

theorem compute_safe_sequence_replay_witness :
    replayOk safeDemoApi.edges (resIdsSorted safeDemoApi) (availFn safeDemoApi)
      (compute_safe_sequence safeDemoApi).safe_sequence = true :=
  compute_safe_sequence_replay safeDemoApi (by decide)

/-! ### Claim C4: denial rolls back to the input graph -/

theorem simulate_allocation_cases (g : ApiGraph) (req : AllocationRequest) :
    (simulate_allocation g req).granted = true ∨
    (simulate_allocation g req).graph = g := by
  unfold simulate_allocation
  split
  · exact Or.inr rfl
  · split
    · exact Or.inr rfl
    · split
      · exact Or.inr rfl
      · dsimp only
        split
        · exact Or.inl rfl
        · exact Or.inr rfl

/-- Claim C4: whenever `simulate_allocation` denies a request — by the
structural bound check or by the safety check — the returned graph is
exactly the input graph; the request is never partially applied. -/
theorem simulate_allocation_rollback (g : ApiGraph) (req : AllocationRequest)
    (h : (simulate_allocation g req).granted = false) :
    (simulate_allocation g req).graph = g := by
  rcases simulate_allocation_cases g req with hg | hg
  · rw [h] at hg
    cases hg
  · exact hg

theorem simulate_allocation_rollback_witness :
    (simulate_allocation sampleApi ⟨"P1", "R1", 1⟩).granted = false ∧
    (simulate_allocation sampleApi ⟨"P1", "R1", 1⟩).graph = sampleApi :=
  ⟨by decide, simulate_allocation_rollback sampleApi ⟨"P1", "R1", 1⟩ (by decide)⟩

/-! ### Claim C3: the sample deadlock scenario -/

/-- Claim C3: on the graph built by `loadSampleDeadlock` (R1 allocated to
P1, P1 requesting R2, R2 allocated to P2, P2 requesting R1, serialized by
`convertToApiFormat`), the engine detects a deadlock, reports the cycle
path P1 → P2 → P1, and finds no safe sequence. -/
theorem sample_deadlock_scenario :
    (detect_deadlock sampleApi).has_deadlock = true ∧
    ((detect_deadlock sampleApi).cycle_info.map CycleInfo.cycle_path) =
      some ["P1", "P2", "P1"] ∧
    (compute_safe_sequence sampleApi).is_safe = false := by
  decide

end Deadpanda
